import Mathlib


set_option linter.unnecessarySeqFocus false
/-!
Verification of the competitive-programming harness (solver/core.py,
solver/cp.py, kattis/platform.py) against its natural-language
specification.  Program text is modelled shallowly: texts are lists of
characters, the ambient process streams are explicit state, and a Solution
is the semantics of `spec.loader.exec_module` on a solution file.
-/

namespace Solver

/-- Texts (Python `str` values) are modelled as lists of characters. -/
abbrev Str := List Char

deriving instance DecidableEq for Except

/-- Python `s.rstrip("\n")`: remove trailing newline characters. -/
def rstripNl (s : Str) : Str := (s.reverse.dropWhile (fun c => c = '\n')).reverse

/-- Python `str.isspace` characters relevant to `str.rstrip()` on the
generated TOML text. -/
def isWs (c : Char) : Bool := c == ' ' || c == '\t' || c == '\n' || c == '\r'

/-- Python `s.rstrip()`: remove trailing whitespace characters. -/
def rstripWs (s : Str) : Str := (s.reverse.dropWhile (fun c => isWs c)).reverse

/-- An ambient input stream object: `sid` models the object's identity
(`sys.stdin is original_stdin`), `content` the data a reader obtains. -/
structure InStream where
  sid : Nat
  content : Str
deriving DecidableEq

/-- The process-wide shared stream state (`sys.stdin`, `sys.stdout`);
stdout objects are modelled by their identity only. -/
structure Streams where
  stdin : InStream
  stdout : Nat
deriving DecidableEq

/-- Effect of `spec.loader.exec_module` on a solution module, as a function
of the text available on the current standard input: the text the module
writes to standard output, and the uncaught exception it raises, if any. -/
structure SolOutcome where
  out : Str
  err : Option Str
deriving DecidableEq

/-- A Solution file: `loads` models whether
`importlib.util.spec_from_file_location` yields a usable spec, `run` the
execution of the loaded module. -/
structure Solution where
  loads : Bool
  run : Str → SolOutcome

/-- Diagnostic of the RuntimeError raised by Runner.run when the module
spec cannot be created (solver/core.py:55,61). -/
def loadFailMsg : Str := "Failed to load module spec".data

/-- The value `Runner.run` computes for a given stdin text: the uncaught
exception, or the captured output with trailing newlines stripped
(solver/core.py:49-67, value part). -/
def runnerResult (sol : Solution) (input : Str) : Except Str Str :=
  if sol.loads then
    match (sol.run input).err with
    | some e => Except.error e
    | none => Except.ok (rstripNl (sol.run input).out)
  else Except.error loadFailMsg

/-- Model of `Runner.run` (solver/core.py:43-67).  The originals of
`sys.stdin`/`sys.stdout` are saved; `sys.stdout` is replaced by a
`Tee(sys.__stdout__, output_capture)` whose captured text is
`(sol.run input).out`; when `stdin_file` is given, `sys.stdin` is the
opened file, otherwise it is left untouched and the Solution reads the
ambient stdin.  The `finally` block restores both streams on every exit
path; the first component is the returned capture (rstripped) or the
propagating exception. -/
def Runner.run (sol : Solution) (stdin_file : Option Str) (s : Streams) :
    Except Str Str × Streams :=
  let original_stdin := s.stdin
  let original_stdout := s.stdout
  let input : Str :=
    match stdin_file with
    | some content => content
    | none => s.stdin.content
  (runnerResult sol input, { stdin := original_stdin, stdout := original_stdout })

/-- `compare_report` (solver/core.py:77-86): prints PASSED or FAILED with a
diagnostic; its value is whether actual equals expected. -/
def compare_report (expected actual : Str) : Bool := actual == expected

/-- A record of the `[[cases]]` array (a TOML table): each key optional. -/
structure Case where
  name : Option Str
  stdin : Option Str
  answer : Option Str
deriving DecidableEq

/-- `str(c.get("name", ""))` (solver/core.py:109,112). -/
def nameStr (c : Case) : Str := c.name.getD []

/-- `case.get("stdin", "")` (solver/core.py:113). -/
def stdinStr (c : Case) : Str := c.stdin.getD []

def digitChar (n : Nat) : Char := Char.ofNat (48 + n)

def natDigitsAux : Nat → Nat → Str
  | 0, _ => []
  | fuel+1, n =>
    if n < 10 then [digitChar n]
    else natDigitsAux fuel (n / 10) ++ [digitChar (n % 10)]

/-- Decimal rendering of a natural number. -/
def natDigits (n : Nat) : Str := natDigitsAux (n+1) n

/-- `f"{int(test_id):02}"` for a nonnegative test id
(solver/core.py:108). -/
def pad2 (n : Nat) : Str := if n < 10 then '0' :: natDigits n else natDigits n

/-- The test-id filter of `run_stdin_cases` (solver/core.py:107-109):
`[c for c in cases if str(c.get("name", "")).startswith(tid)]`. -/
def filterCases (cases : List Case) : Option Nat → List Case
  | none => cases
  | some tid => cases.filter (fun c => (pad2 tid).isPrefixOf (nameStr c))

/-- The three counters printed by the run summary
(solver/core.py:110,132). -/
structure RunSummary where
  passed : Nat
  failed : Nat
  unchecked : Nat
deriving DecidableEq

/-- The per-case loop of `run_stdin_cases` (solver/core.py:111-130): each
case's stdin text is written to a temporary file and the Solution is run on
it via `Runner.run`; the ambient stream state is threaded through the
calls.  There is no exception handler around `Runner.run`, so an uncaught
error from one case aborts the whole loop. -/
def runCasesLoop (sol : Solution) :
    Streams → List Case → Nat → Nat → Nat → Except Str RunSummary × Streams
  | s, [], p, f, u => (Except.ok ⟨p, f, u⟩, s)
  | s, c :: rest, p, f, u =>
    match Runner.run sol (some (stdinStr c)) s with
    | (Except.error e, s') => (Except.error e, s')
    | (Except.ok actual, s') =>
      match c.answer with
      | some a =>
        if compare_report (rstripNl a) (rstripNl actual) then
          runCasesLoop sol s' rest (p+1) f u
        else
          runCasesLoop sol s' rest p (f+1) u
      | none => runCasesLoop sol s' rest p f (u+1)

/-- `run_stdin_cases` (solver/core.py:105-134), returning the printed
summary counts; `Except.error` is the propagation of an uncaught Solution
error (the Python function would not reach its summary). -/
def run_stdin_cases (sol : Solution) (cases : List Case) (test_id : Option Nat)
    (s : Streams) : Except Str RunSummary :=
  (runCasesLoop sol s (filterCases cases test_id) 0 0 0).1

/-- The boolean `run_stdin_cases` returns to its caller:
`failed == 0` (solver/core.py:134). -/
def run_stdin_cases_ret (sol : Solution) (cases : List Case)
    (test_id : Option Nat) (s : Streams) : Except Str Bool :=
  (run_stdin_cases sol cases test_id s).map (fun sm => sm.failed == 0)

/-- Outcome of `tomllib.loads(tests_file.read_text())` followed by
`data.get("cases", [])` (solver/core.py:93-99): the parse raised, the key
is absent (so the default `[]` is used), the value is not a list, or it is
a list of case records. -/
inductive TomlCases where
  | parseError
  | absent
  | notList
  | list (cs : List Case)
deriving DecidableEq

/-- `load_tests_toml` (solver/core.py:89-102): `sys.exit(1)` is modelled by
`Except.error ()`; on success the validated `cases` list (which the caller
re-extracts from the returned data) is returned. -/
def load_tests_toml : TomlCases → Except Unit (List Case)
  | TomlCases.parseError => Except.error ()
  | TomlCases.absent => Except.error ()
  | TomlCases.notList => Except.error ()
  | TomlCases.list cs => if cs = [] then Except.error () else Except.ok cs

/-- Per-case classification of the loop body of `run_stdin_cases`
(solver/core.py:121-130): `none` when the Solution's uncaught error aborts
the case, otherwise the verdict the counters record. -/
inductive Verdict where
  | pass
  | fail
  | unchecked
deriving DecidableEq

/-- The verdict the body of `run_stdin_cases` assigns to one case, factored
out of `runCasesLoop` (the result of `Runner.run` with a file does not
depend on the ambient stream state). -/
def classifyCase (sol : Solution) (c : Case) : Option Verdict :=
  match runnerResult sol (stdinStr c) with
  | Except.error _ => none
  | Except.ok actual =>
    match c.answer with
    | some a =>
      if compare_report (rstripNl a) (rstripNl actual) then some Verdict.pass
      else some Verdict.fail
    | none => some Verdict.unchecked

/-- How a `cph kattis test` process can end. -/
inductive CmdOutcome where
  | fatalExit (code : Nat)
  | crashed (msg : Str)
  | finished (success : Bool)
deriving DecidableEq

/-- `KattisPlatform.cmd_test` (kattis/platform.py:141-153) on the path
where tests.toml exists; `table` is the parse outcome of its content.  The
sample-download branch (network and filesystem effects) is outside the
model; when it cannot produce a table it also ends in `sys.exit(1)`.
`ensure_solution_exists` exits 1 when the solution file is absent. -/
def cmd_test (solutionExists : Bool) (table : TomlCases) (sol : Solution)
    (test_id : Option Nat) (s : Streams) : CmdOutcome :=
  if solutionExists then
    match load_tests_toml table with
    | Except.error _ => CmdOutcome.fatalExit 1
    | Except.ok cases =>
      match run_stdin_cases sol cases test_id s with
      | Except.error e => CmdOutcome.crashed e
      | Except.ok sm => CmdOutcome.finished (sm.failed == 0)
  else CmdOutcome.fatalExit 1

/-- `main` in solver/cp.py:55-68 for the `test` subcommand: the lambda
registered in `KattisPlatform.register_cli` (kattis/platform.py:214) calls
`cmd_test` and `args.func(args)` discards its boolean; `main` then returns
normally, so the process exits 0.  `sys.exit(c)` exits with `c`; an
uncaught exception makes the interpreter exit 1. -/
def testExitCode : CmdOutcome → Nat
  | CmdOutcome.fatalExit c => c
  | CmdOutcome.crashed _ => 1
  | CmdOutcome.finished _ => 0

/-- One downloaded sample fixture: the stem of the `.in` file, the `.in`
file's text, and the text of the sibling `.ans` file when it exists
(kattis/platform.py:111-116).  A fixture list stands for
`sorted(samples_dir.glob("*.in"))` in that order. -/
structure Fixture where
  name : Str
  stdin : Str
  answer : Option Str
deriving DecidableEq

/-- `s.replace('"""', '\\"""')` (kattis/platform.py:106): left-to-right,
non-overlapping replacement. -/
def replaceTriple : Str → Str
  | '"' :: '"' :: '"' :: rest => '\\' :: '"' :: '"' :: '"' :: replaceTriple rest
  | c :: rest => c :: replaceTriple rest
  | [] => []

def q3 : Str := ['"', '"', '"']

/-- `KattisPlatform._toml_multiline` (kattis/platform.py:104-106). -/
def toml_multiline (s : Str) : Str := q3 ++ replaceTriple s ++ q3

/-- The lines `write_tests_from_samples` appends for one sample
(kattis/platform.py:117-122). -/
def caseLines (f : Fixture) : List Str :=
  ["[[cases]]".data,
   "name = ".data ++ '"' :: f.name ++ ['"'],
   "stdin = ".data ++ toml_multiline f.stdin]
  ++ (match f.answer with
      | some a => ["answer = ".data ++ toml_multiline a]
      | none => [])
  ++ [[]]

/-- Python `"\n".join`. -/
def joinNl : List Str → Str
  | [] => []
  | [l] => l
  | l :: ls => l ++ '\n' :: joinNl ls

/-- The text `write_tests_from_samples` writes to tests.toml
(kattis/platform.py:108-124): `"\n".join(lines).rstrip() + "\n"`. -/
def write_tests_content (fs : List Fixture) : Str :=
  rstripWs (joinNl (List.flatten (fs.map caseLines))) ++ ['\n']

/-- Scanner for the body of a TOML multi-line basic string, after the
opening delimiter: the first `"""` closes the string; backslash escape
sequences are outside the modelled fragment; tab, newline and
non-control characters are taken literally, anything else is a TOML
error.  Models `tomllib.loads` (external standard library) on the
strings `write_tests_from_samples` emits. -/
def scanML : Str → Option (Str × Str)
  | [] => none
  | c :: rest =>
    if c = '"' ∧ rest.take 2 = ['"', '"'] then some ([], rest.drop 2)
    else if c = '\\' then none
    else if c = '\t' ∨ c = '\n' ∨ (32 ≤ c.toNat ∧ c.toNat ≠ 127) then
      (scanML rest).map (fun p => (c :: p.1, p.2))
    else none

/-- Scanner for the body of a single-line TOML basic string after the
opening quote; escapes and control characters are outside the modelled
fragment. -/
def scanBasic : Str → Option (Str × Str)
  | [] => none
  | c :: rest =>
    if c = '"' then some ([], rest)
    else if c = '\\' ∨ c.toNat < 32 ∨ c.toNat = 127 then none
    else (scanBasic rest).map (fun p => (c :: p.1, p.2))

/-- The TOML rule that a newline immediately following the opening `"""`
delimiter is trimmed. -/
def trimLead : Str → Str
  | [] => []
  | c :: rest => if c = '\n' then rest else c :: rest

def expectLit : Str → Str → Option Str
  | [], s => some s
  | _ :: _, [] => none
  | l :: ls, c :: cs => if c = l then expectLit ls cs else none

def litHeader : Str := "[[cases]]\nname = \"".data

def litStdin : Str := "\nstdin = \"\"\"".data

def litAnswer : Str := "\nanswer = \"\"\"".data

/-- Parse one `[[cases]]` table in the exact shape
`write_tests_from_samples` emits: a `name` basic string, a `stdin`
multi-line string, and an optional `answer` multi-line string. -/
def parseCaseBlock (s : Str) : Option (Case × Str) :=
  (expectLit litHeader s).bind (fun s1 =>
  (scanBasic s1).bind (fun nmp =>
  (expectLit litStdin nmp.2).bind (fun s3 =>
  (scanML (trimLead s3)).bind (fun sip =>
  match expectLit litAnswer sip.2 with
  | some s5 =>
    (scanML (trimLead s5)).map (fun anp =>
      (⟨some nmp.1, some sip.1, some anp.1⟩, anp.2))
  | none => some (⟨some nmp.1, some sip.1, none⟩, sip.2)))))

def parseCasesAux : Nat → Str → Option (List Case)
  | _, [] => some []
  | 0, _ => none
  | fuel+1, s =>
    let s1 := s.dropWhile (fun c => c = '\n')
    if s1 = [] then some []
    else
      (parseCaseBlock s1).bind (fun p =>
        (parseCasesAux fuel p.2).map (fun cs => p.1 :: cs))

/-- Model of `tomllib.loads` (external standard library, TOML v1.0) on the
fragment of TOML emitted by `write_tests_from_samples`, returning the
value of the `cases` key: blank-line-separated `[[cases]]` tables.  `none`
models a raised `TOMLDecodeError`. -/
def tomlParseCases (s : Str) : Option (List Case) :=
  parseCasesAux (s.length + 1) s

/-- The `TomlCases` outcome of parsing a source text: a parse error, an
empty table array (no `cases` key materialises, so `data.get("cases", [])`
is `[]`), or the parsed list. -/
def tomlCasesOfSource (s : Str) : TomlCases :=
  match tomlParseCases s with
  | none => TomlCases.parseError
  | some [] => TomlCases.absent
  | some cs => TomlCases.list cs

/-- The case record a fixture denotes. -/
def toCase (f : Fixture) : Case := ⟨some f.name, some f.stdin, f.answer⟩

/-- Generate tests.toml from fixtures with `write_tests_from_samples`,
then reload it with `load_tests_toml`. -/
def writeLoadRoundTrip (fs : List Fixture) : Except Unit (List Case) :=
  load_tests_toml (tomlCasesOfSource (write_tests_content fs))

/-- Characters a TOML multi-line basic string reproduces verbatim and that
the writer's escaping leaves untouched. -/
def MlCharOk (c : Char) : Prop :=
  c = '\t' ∨ c = '\n' ∨ (32 ≤ c.toNat ∧ c ≠ '"' ∧ c ≠ '\\' ∧ c.toNat ≠ 127)

instance (c : Char) : Decidable (MlCharOk c) := by
  unfold MlCharOk
  infer_instance

/-- A text that survives the multi-line round trip: safe characters only
and no leading newline (which the TOML delimiter rule would trim). -/
def SafeText (s : Str) : Prop :=
  (∀ c ∈ s, MlCharOk c) ∧ s.head? ≠ some '\n'

/-- A name that survives the single-line basic-string round trip. -/
def SafeName (s : Str) : Prop :=
  ∀ c ∈ s, 32 ≤ c.toNat ∧ c ≠ '"' ∧ c ≠ '\\' ∧ c.toNat ≠ 127

/-- Safety of an optional answer text. -/
def SafeAns : Option Str → Prop
  | some a => SafeText a
  | none => True

def SafeFixture (f : Fixture) : Prop :=
  SafeName f.name ∧ SafeText f.stdin ∧ SafeAns f.answer

/-- The spec's reading of case-subset selection, for comparison with the
code's `filterCases`.  Modelled from the spec: the name defaults to the
positional (1-based, matching `enumerate(..., start=1)`) index when the
record supplies none, and a case is retained when that name begins with
the two-digit zero-padded target index. -/
def specName (idx : Nat) (c : Case) : Str :=
  match c.name with
  | some n => n
  | none => natDigits idx

/-- Modelled from the spec: selection that honours the positional-index
name default. -/
def selectBySpec (cases : List Case) (tid : Nat) : List Case :=
  (cases.enum.filter
    (fun p => (pad2 tid).isPrefixOf (specName (p.1 + 1) p.2))).map (fun p => p.2)

instance (s : Str) : Decidable (SafeText s) := by
  unfold SafeText
  infer_instance

instance (s : Str) : Decidable (SafeName s) := by
  unfold SafeName
  infer_instance

instance : (o : Option Str) → Decidable (SafeAns o)
  | some a => inferInstanceAs (Decidable (SafeText a))
  | none => Decidable.isTrue trivial

instance (f : Fixture) : Decidable (SafeFixture f) := by
  unfold SafeFixture
  infer_instance

/-- The textual tail a fixture's optional answer contributes to its
`[[cases]]` block. -/
def ansPart (f : Fixture) : Str :=
  match f.answer with
  | some a => litAnswer ++ replaceTriple a ++ q3
  | none => []

/-- The text of one `[[cases]]` block, without its trailing newline: a
proof-normal regrouping of `joinNl (caseLines f)`. -/
def blockCore (f : Fixture) : Str :=
  litHeader ++ f.name ++ '"' :: litStdin ++ replaceTriple f.stdin ++ q3 ++ ansPart f

/-- Blocks joined by blank lines (proof-normal form of the joined,
right-stripped line list). -/
def chainCore : List Fixture → Str
  | [] => []
  | [f] => blockCore f
  | f :: rest => blockCore f ++ '\n' :: '\n' :: chainCore rest

/-- Proof-normal form of `write_tests_content`. -/
def chainBlocks (fs : List Fixture) : Str := chainCore fs ++ ['\n']

/-! Concrete inputs used by counterexamples and witnesses. -/

/-- An arbitrary ambient stream state with empty stdin. -/
def s0 : Streams := ⟨⟨0, []⟩, 0⟩

/-- An ambient stream state whose stdin holds pending text. -/
def sAmb : Streams := ⟨⟨5, "hello".data⟩, 7⟩

/-- A Solution that echoes whatever standard input offers. -/
def echoSol : Solution := ⟨true, fun v => ⟨v, none⟩⟩

/-- A Solution that raises an uncaught error on every input. -/
def crashSol : Solution := ⟨true, fun _ => ⟨[], some ("boom".data)⟩⟩

/-- A deterministic Solution that always prints 42. -/
def fixedSol : Solution := ⟨true, fun _ => ⟨"42\n".data, none⟩⟩

def caseA : Case := ⟨some ("01-basic".data), some ("x\n".data), some ("42".data)⟩

def caseB : Case := ⟨some ("02-edge".data), some ("y\n".data), some ("7".data)⟩

def caseU : Case := ⟨some ("03-open".data), some ("z".data), none⟩

def caseNoName : Case := ⟨none, some [], some ("42".data)⟩

def namedFiller : Case := ⟨some ("x".data), none, none⟩

/-- Ten cases; the tenth (1-based) supplies no name. -/
def cs10 : List Case :=
  [namedFiller, namedFiller, namedFiller, namedFiller, namedFiller,
   namedFiller, namedFiller, namedFiller, namedFiller, caseNoName]

/-- A fixture whose input text begins with a newline. -/
def fxLead : Fixture := ⟨"01".data, '\n' :: "A\n".data, none⟩

def fxSafe1 : Fixture := ⟨"01".data, "3 4\n".data, some ("7\n".data)⟩

def fxSafe2 : Fixture := ⟨"02".data, "x".data, none⟩

/-- Number of selected cases whose verdict is `v`. -/
def verdictCount (sol : Solution) (v : Verdict) (cs : List Case) : Nat :=
  cs.countP (fun c => classifyCase sol c == some v)

/-! ### Helper lemmas -/

theorem runner_run_some (sol : Solution) (v : Str) (s : Streams) :
    Runner.run sol (some v) s = (runnerResult sol v, s) := rfl

theorem dropWhile_self_idem {α} (p : α → Bool) (l : List α) :
    (l.dropWhile p).dropWhile p = l.dropWhile p := by
  induction l with
  | nil => rfl
  | cons a t ih =>
    by_cases h : p a
    · simp [List.dropWhile_cons, h, ih]
    · simp [List.dropWhile_cons, h]

theorem rstripNl_idem (s : Str) : rstripNl (rstripNl s) = rstripNl s := by
  simp [rstripNl, dropWhile_self_idem]

theorem classifyCase_of_runnerError {sol : Solution} {c : Case} {e : Str}
    (hr : runnerResult sol (stdinStr c) = Except.error e) :
    classifyCase sol c = none := by
  simp [classifyCase, hr]

theorem classifyCase_of_runnerOk {sol : Solution} {c : Case} {actual : Str}
    (hr : runnerResult sol (stdinStr c) = Except.ok actual) :
    classifyCase sol c ≠ none := by
  intro hno
  unfold classifyCase at hno
  rw [hr] at hno
  dsimp only at hno
  cases ha : c.answer with
  | some a => rw [ha] at hno; dsimp only at hno; split at hno <;> simp_all
  | none => rw [ha] at hno; simp_all

theorem runCasesLoop_ok (sol : Solution) :
    ∀ (cs : List Case) (s : Streams) (p f u : Nat),
      (∀ c ∈ cs, classifyCase sol c ≠ none) →
      runCasesLoop sol s cs p f u =
        (Except.ok ⟨p + verdictCount sol Verdict.pass cs,
                    f + verdictCount sol Verdict.fail cs,
                    u + verdictCount sol Verdict.unchecked cs⟩, s) := by
  intro cs
  induction cs with
  | nil => intro s p f u _; simp [runCasesLoop, verdictCount]
  | cons c t ih =>
    intro s p f u h
    have hc : classifyCase sol c ≠ none := h c (by simp)
    have ht : ∀ x ∈ t, classifyCase sol x ≠ none := fun x hx => h x (by simp [hx])
    simp only [runCasesLoop, runner_run_some]
    cases hr : runnerResult sol (stdinStr c) with
    | error e => exact absurd (classifyCase_of_runnerError hr) hc
    | ok actual =>
      dsimp only
      cases ha : c.answer with
      | some a =>
        dsimp only
        by_cases hcmp : compare_report (rstripNl a) (rstripNl actual) = true
        · have hcl : classifyCase sol c = some Verdict.pass := by
            simp [classifyCase, hr, ha, hcmp]
          rw [if_pos hcmp, ih s (p+1) f u ht]
          simp only [Prod.mk.injEq, Except.ok.injEq, RunSummary.mk.injEq,
            verdictCount, List.countP_cons, hcl]
          refine ⟨⟨?_, ?_, ?_⟩, trivial⟩ <;> simp <;> omega
        · have hcl : classifyCase sol c = some Verdict.fail := by
            simp [classifyCase, hr, ha, hcmp]
          rw [if_neg hcmp, ih s p (f+1) u ht]
          simp only [Prod.mk.injEq, Except.ok.injEq, RunSummary.mk.injEq,
            verdictCount, List.countP_cons, hcl]
          refine ⟨⟨?_, ?_, ?_⟩, trivial⟩ <;> simp <;> omega
      | none =>
        have hcl : classifyCase sol c = some Verdict.unchecked := by
          simp [classifyCase, hr, ha]
        dsimp only
        rw [ih s p f (u+1) ht]
        simp only [Prod.mk.injEq, Except.ok.injEq, RunSummary.mk.injEq,
          verdictCount, List.countP_cons, hcl]
        refine ⟨⟨?_, ?_, ?_⟩, trivial⟩ <;> simp <;> omega

theorem run_stdin_cases_ok (sol : Solution) (cases : List Case)
    (tid : Option Nat) (s : Streams)
    (h : ∀ c ∈ filterCases cases tid, classifyCase sol c ≠ none) :
    run_stdin_cases sol cases tid s =
      Except.ok ⟨verdictCount sol Verdict.pass (filterCases cases tid),
                 verdictCount sol Verdict.fail (filterCases cases tid),
                 verdictCount sol Verdict.unchecked (filterCases cases tid)⟩ := by
  unfold run_stdin_cases
  rw [runCasesLoop_ok sol _ s 0 0 0 h]
  simp

theorem runCasesLoop_sum (sol : Solution) :
    ∀ (cs : List Case) (s : Streams) (p f u : Nat) (sm : RunSummary),
      (runCasesLoop sol s cs p f u).1 = Except.ok sm →
      sm.passed + sm.failed + sm.unchecked = p + f + u + cs.length := by
  intro cs
  induction cs with
  | nil =>
    intro s p f u sm h
    simp only [runCasesLoop, Except.ok.injEq] at h
    rw [← h]
    simp
  | cons c t ih =>
    intro s p f u sm h
    simp only [runCasesLoop, runner_run_some] at h
    cases hr : runnerResult sol (stdinStr c) with
    | error e => rw [hr] at h; dsimp only at h; simp at h
    | ok actual =>
      rw [hr] at h
      dsimp only at h
      cases ha : c.answer with
      | some a =>
        rw [ha] at h
        dsimp only at h
        by_cases hcmp : compare_report (rstripNl a) (rstripNl actual) = true
        · rw [if_pos hcmp] at h
          have := ih s (p+1) f u sm h
          simp only [List.length_cons]
          omega
        · rw [if_neg hcmp] at h
          have := ih s p (f+1) u sm h
          simp only [List.length_cons]
          omega
      | none =>
        rw [ha] at h
        dsimp only at h
        have := ih s p f (u+1) sm h
        simp only [List.length_cons]
        omega

theorem runCasesLoop_ok_classify (sol : Solution) :
    ∀ (cs : List Case) (s : Streams) (p f u : Nat) (sm : RunSummary),
      (runCasesLoop sol s cs p f u).1 = Except.ok sm →
      ∀ c ∈ cs, classifyCase sol c ≠ none := by
  intro cs
  induction cs with
  | nil => intro s p f u sm _ c hc; simp at hc
  | cons c t ih =>
    intro s p f u sm h x hx
    simp only [runCasesLoop, runner_run_some] at h
    cases hr : runnerResult sol (stdinStr c) with
    | error e => rw [hr] at h; dsimp only at h; simp at h
    | ok actual =>
      rw [hr] at h
      dsimp only at h
      have hx' : x = c ∨ x ∈ t := by simpa using hx
      cases hx' with
      | inl he =>
        subst he
        exact classifyCase_of_runnerOk hr
      | inr hm =>
        cases ha : c.answer with
        | some a =>
          rw [ha] at h
          dsimp only at h
          by_cases hcmp : compare_report (rstripNl a) (rstripNl actual) = true
          · rw [if_pos hcmp] at h
            exact ih s (p+1) f u sm h x hm
          · rw [if_neg hcmp] at h
            exact ih s p (f+1) u sm h x hm
        | none =>
          rw [ha] at h
          dsimp only at h
          exact ih s p f (u+1) sm h x hm

theorem natDigitsAux_ne_nil (fuel n : Nat) : natDigitsAux (fuel+1) n ≠ [] := by
  unfold natDigitsAux
  split
  · simp
  · simp

theorem pad2_ne_nil (n : Nat) : pad2 n ≠ [] := by
  unfold pad2 natDigits
  split
  · simp
  · exact natDigitsAux_ne_nil n n

theorem classify_some_answer {sol : Solution} {c : Case} {v : Verdict}
    (hv : v ≠ Verdict.unchecked) (h : classifyCase sol c = some v) :
    c.answer.isSome = true := by
  unfold classifyCase at h
  cases hr : runnerResult sol (stdinStr c) with
  | error e => rw [hr] at h; dsimp only at h; simp at h
  | ok actual =>
    rw [hr] at h
    dsimp only at h
    cases ha : c.answer with
    | some a => simp [ha]
    | none =>
      rw [ha] at h
      dsimp only at h
      exact absurd (Option.some.inj h).symm hv

theorem classify_beq_answer (sol : Solution) (v : Verdict)
    (hv : v ≠ Verdict.unchecked) (c : Case)
    (h : (classifyCase sol c == some v) = true) : c.answer.isSome = true :=
  classify_some_answer hv (by simpa using h)

theorem verdictCount_filter_answered (sol : Solution) (v : Verdict)
    (hv : v ≠ Verdict.unchecked) (cases : List Case) (tid : Option Nat) :
    verdictCount sol v
        (filterCases (cases.filter (fun c => c.answer.isSome)) tid) =
      verdictCount sol v (filterCases cases tid) := by
  have hfun : ∀ (p : Case → Bool),
      (∀ c, p c = true → (classifyCase sol c == some v) = true) →
      (fun c => p c && c.answer.isSome) = p := by
    intro p hp
    funext c
    by_cases hc : p c = true
    · simp [hc, classify_beq_answer sol v hv c (hp c hc)]
    · have : p c = false := by revert hc; cases p c <;> simp
      simp [this]
  cases tid with
  | none =>
    show verdictCount sol v (cases.filter (fun c => c.answer.isSome)) =
      verdictCount sol v cases
    unfold verdictCount
    rw [List.countP_filter,
      hfun (fun c => classifyCase sol c == some v) (fun c hc => hc)]
  | some n =>
    show verdictCount sol v
        ((cases.filter (fun c => c.answer.isSome)).filter
          (fun c => (pad2 n).isPrefixOf (nameStr c))) =
      verdictCount sol v
        (cases.filter (fun c => (pad2 n).isPrefixOf (nameStr c)))
    unfold verdictCount
    rw [List.countP_filter, List.countP_filter, List.countP_filter,
      hfun (fun c => (classifyCase sol c == some v) &&
        (pad2 n).isPrefixOf (nameStr c)) (fun c hc => by
          have := (Bool.and_eq_true _ _).mp hc
          exact this.1)]

/-! Lemmas about the tests.toml writer and the TOML-fragment parser. -/

theorem expectLit_append : ∀ (l s : Str), expectLit l (l ++ s) = some s := by
  intro l
  induction l with
  | nil => intro s; rfl
  | cons a t ih => intro s; simp [expectLit, ih]

theorem mlCharOk_ne_quote {c : Char} (h : MlCharOk c) : c ≠ '"' := by
  rcases h with h | h | h
  · subst h; decide
  · subst h; decide
  · exact h.2.1

theorem mlCharOk_ne_backslash {c : Char} (h : MlCharOk c) : c ≠ '\\' := by
  rcases h with h | h | h
  · subst h; decide
  · subst h; decide
  · exact h.2.2.1

theorem replaceTriple_eq_self : ∀ (s : Str), (∀ c ∈ s, c ≠ '"') →
    replaceTriple s = s := by
  intro s
  induction s with
  | nil => intro _; rfl
  | cons c t ih =>
    intro h
    have hc : c ≠ '"' := h c (by simp)
    have ht : ∀ x ∈ t, x ≠ '"' := fun x hx => h x (by simp [hx])
    rw [replaceTriple.eq_def]
    split
    · rename_i rest heq
      exfalso
      apply hc
      injection heq
    · rename_i c' rest heq
      injection heq with h1 h2
      subst h1
      subst h2
      rw [ih ht]
    · rename_i heq
      cases heq

theorem scanBasic_append : ∀ (nm : Str), SafeName nm → ∀ (t : Str),
    scanBasic (nm ++ '"' :: t) = some (nm, t) := by
  intro nm
  induction nm with
  | nil =>
    intro _ t
    simp [scanBasic]
  | cons c r ih =>
    intro h t
    obtain ⟨h32, hq, hb, h127⟩ := h c (by simp)
    have hr : SafeName r := fun x hx => h x (by simp [hx])
    have hnot : ¬(c = '\\' ∨ c.toNat < 32 ∨ c.toNat = 127) := by
      push_neg
      exact ⟨hb, by omega, h127⟩
    simp only [List.cons_append, scanBasic, List.append_eq, if_neg hq,
      if_neg hnot]
    rw [ih hr t]
    rfl

theorem scanML_append : ∀ (content : Str), (∀ c ∈ content, MlCharOk c) →
    ∀ (t : Str), scanML (content ++ q3 ++ t) = some (content, t) := by
  intro content
  induction content with
  | nil =>
    intro _ t
    show scanML ('"' :: '"' :: '"' :: t) = some ([], t)
    simp [scanML]
  | cons c r ih =>
    intro h t
    have hc : MlCharOk c := h c (by simp)
    have hr : ∀ x ∈ r, MlCharOk x := fun x hx => h x (by simp [hx])
    have hq := mlCharOk_ne_quote hc
    have hb := mlCharOk_ne_backslash hc
    have h1 : ¬(c = '"' ∧ (r ++ q3 ++ t).take 2 = ['"', '"']) := by
      intro hx
      exact hq hx.1
    have h3 : c = '\t' ∨ c = '\n' ∨ (32 ≤ c.toNat ∧ c.toNat ≠ 127) := by
      rcases hc with hx | hx | hx
      · exact Or.inl hx
      · exact Or.inr (Or.inl hx)
      · exact Or.inr (Or.inr ⟨hx.1, hx.2.2.2⟩)
    simp only [List.cons_append, scanML, List.append_eq, if_neg h1, if_neg hb,
      if_pos h3]
    rw [ih hr t]
    rfl

theorem trimLead_of_head (s : Str) (h : s.head? ≠ some '\n') :
    trimLead s = s := by
  cases s with
  | nil => rfl
  | cons c r =>
    have : c ≠ '\n' := by
      intro hx
      exact h (by simp [hx])
    simp [trimLead, this]

theorem litHeader_eq :
    litHeader = "[[cases]]".data ++ '\n' :: "name = ".data ++ ['"'] := rfl

theorem litStdin_eq : litStdin = '\n' :: "stdin = ".data ++ q3 := rfl

theorem litAnswer_eq : litAnswer = '\n' :: "answer = ".data ++ q3 := rfl

theorem joinNl_one (a : Str) : joinNl [a] = a := rfl

theorem joinNl_cons2 (a b : Str) (ls : List Str) :
    joinNl (a :: b :: ls) = a ++ '\n' :: joinNl (b :: ls) := rfl

theorem joinNl_caseLines (f : Fixture) :
    joinNl (caseLines f) = blockCore f ++ ['\n'] := by
  cases hfa : f.answer with
  | none =>
    simp only [caseLines, hfa, blockCore, ansPart, toml_multiline,
      litHeader_eq, litStdin_eq, litAnswer_eq, List.nil_append,
      List.cons_append, List.append_nil, joinNl_cons2, joinNl_one,
      List.append_assoc]
  | some a =>
    simp only [caseLines, hfa, blockCore, ansPart, toml_multiline,
      litHeader_eq, litStdin_eq, litAnswer_eq, List.nil_append,
      List.cons_append, List.append_nil, joinNl_cons2, joinNl_one,
      List.append_assoc]

theorem caseLines_ne_nil (f : Fixture) : caseLines f ≠ [] := by
  cases hfa : f.answer <;> simp [caseLines, hfa]

theorem joinNl_append : ∀ (A B : List Str), A ≠ [] → B ≠ [] →
    joinNl (A ++ B) = joinNl A ++ '\n' :: joinNl B := by
  intro A
  induction A with
  | nil => intro B h; exact absurd rfl h
  | cons a A' ih =>
    intro B _ hB
    cases A' with
    | nil =>
      cases B with
      | nil => exact absurd rfl hB
      | cons b B' => simp [joinNl_cons2, joinNl_one]
    | cons a2 A'' =>
      have := ih B (by simp) hB
      calc joinNl ((a :: a2 :: A'') ++ B)
          = a ++ '\n' :: joinNl ((a2 :: A'') ++ B) := by
            simp [List.cons_append, joinNl_cons2]
        _ = a ++ '\n' :: (joinNl (a2 :: A'') ++ '\n' :: joinNl B) := by
            rw [this]
        _ = joinNl (a :: a2 :: A'') ++ '\n' :: joinNl B := by
            simp [joinNl_cons2, List.append_assoc]

theorem joinNl_chain : ∀ (fs : List Fixture), fs ≠ [] →
    joinNl (List.flatten (fs.map caseLines)) = chainCore fs ++ ['\n'] := by
  intro fs
  induction fs with
  | nil => intro h; exact absurd rfl h
  | cons f rest ih =>
    intro _
    cases rest with
    | nil =>
      show joinNl (caseLines f ++ List.flatten []) = chainCore [f] ++ ['\n']
      simp only [List.flatten_nil, List.append_nil, chainCore]
      exact joinNl_caseLines f
    | cons g t =>
      have hne : List.flatten (((g :: t)).map caseLines) ≠ [] := by
        intro hx
        simp only [List.map_cons, List.flatten_cons] at hx
        exact caseLines_ne_nil g (List.append_eq_nil.mp hx).1
      calc joinNl (List.flatten ((f :: g :: t).map caseLines))
          = joinNl (caseLines f ++ List.flatten ((g :: t).map caseLines)) := by
            simp [List.flatten_cons]
        _ = joinNl (caseLines f) ++ '\n' ::
              joinNl (List.flatten ((g :: t).map caseLines)) :=
            joinNl_append _ _ (caseLines_ne_nil f) hne
        _ = (blockCore f ++ ['\n']) ++ '\n' :: (chainCore (g :: t) ++ ['\n']) := by
            rw [joinNl_caseLines f, ih (by simp)]
        _ = chainCore (f :: g :: t) ++ ['\n'] := by
            simp [chainCore, List.append_assoc]

theorem rstripWs_append_nl (x : Str) (c : Char) (hc : isWs c = false) :
    rstripWs ((x ++ [c]) ++ ['\n']) = x ++ [c] := by
  unfold rstripWs
  rw [List.reverse_append, List.reverse_append]
  simp only [List.reverse_cons, List.reverse_nil, List.nil_append,
    List.cons_append, List.dropWhile_cons]
  have h1 : isWs '\n' = true := by decide
  rw [h1]
  simp only [if_true]
  rw [hc]
  simp

theorem blockCore_ends (f : Fixture) : ∃ x, blockCore f = x ++ ['"'] := by
  cases hfa : f.answer with
  | none =>
    refine ⟨litHeader ++ f.name ++ '"' :: litStdin ++ replaceTriple f.stdin ++
      ['"', '"'], ?_⟩
    simp [blockCore, ansPart, hfa, q3, List.append_assoc]
  | some a =>
    refine ⟨litHeader ++ f.name ++ '"' :: litStdin ++ replaceTriple f.stdin ++
      q3 ++ litAnswer ++ replaceTriple a ++ ['"', '"'], ?_⟩
    simp [blockCore, ansPart, hfa, q3, List.append_assoc]

theorem chainCore_ends : ∀ (fs : List Fixture), fs ≠ [] →
    ∃ x, chainCore fs = x ++ ['"'] := by
  intro fs
  induction fs with
  | nil => intro h; exact absurd rfl h
  | cons f rest ih =>
    intro _
    cases rest with
    | nil => exact blockCore_ends f
    | cons g t =>
      obtain ⟨x, hx⟩ := ih (by simp)
      refine ⟨blockCore f ++ '\n' :: '\n' :: x, ?_⟩
      show blockCore f ++ '\n' :: '\n' :: chainCore (g :: t) = _
      rw [hx]
      simp [List.append_assoc]

theorem write_eq_chain (fs : List Fixture) :
    write_tests_content fs = chainBlocks fs := by
  cases hfs : fs with
  | nil => rfl
  | cons f rest =>
    unfold write_tests_content chainBlocks
    rw [joinNl_chain (f :: rest) (by simp)]
    obtain ⟨x, hx⟩ := chainCore_ends (f :: rest) (by simp)
    rw [hx, rstripWs_append_nl x '"' (by decide), ← hx]

theorem blockCore_cons (f : Fixture) : ∃ z, blockCore f = '[' :: z := by
  refine ⟨"[cases]]\nname = \"".data ++ f.name ++ '"' :: litStdin ++
    replaceTriple f.stdin ++ q3 ++ ansPart f, ?_⟩
  unfold blockCore
  rw [show litHeader = '[' :: "[cases]]\nname = \"".data from rfl]
  simp [List.cons_append]

theorem parseCaseBlock_blockCore (f : Fixture) (rest : Str)
    (hs : SafeFixture f)
    (hra : f.answer = none → expectLit litAnswer rest = none) :
    parseCaseBlock (blockCore f ++ rest) = some (toCase f, rest) := by
  obtain ⟨hn, hstdin, hans⟩ := hs
  have hrt : replaceTriple f.stdin = f.stdin :=
    replaceTriple_eq_self _ (fun c hc => mlCharOk_ne_quote (hstdin.1 c hc))
  have hin : blockCore f ++ rest =
      litHeader ++ (f.name ++ '"' ::
        (litStdin ++ (f.stdin ++ (q3 ++ (ansPart f ++ rest))))) := by
    simp [blockCore, hrt, List.append_assoc]
  have hhead : (f.stdin ++ (q3 ++ (ansPart f ++ rest))).head? ≠ some '\n' := by
    cases hst : f.stdin with
    | nil => simp [q3]
    | cons c r =>
      have hh := hstdin.2
      rw [hst] at hh
      simpa using hh
  rw [hin]
  unfold parseCaseBlock
  rw [expectLit_append]
  dsimp only [Option.bind]
  rw [scanBasic_append f.name hn]
  dsimp only [Option.bind]
  rw [expectLit_append]
  dsimp only [Option.bind]
  rw [trimLead_of_head _ hhead]
  rw [show f.stdin ++ (q3 ++ (ansPart f ++ rest)) =
    f.stdin ++ q3 ++ (ansPart f ++ rest) from by rw [List.append_assoc]]
  rw [scanML_append f.stdin hstdin.1]
  dsimp only [Option.bind]
  cases hfa : f.answer with
  | some a =>
    have hsa : SafeText a := by
      have := hans
      rw [hfa] at this
      exact this
    have hrta : replaceTriple a = a :=
      replaceTriple_eq_self _ (fun c hc => mlCharOk_ne_quote (hsa.1 c hc))
    have hap : ansPart f ++ rest = litAnswer ++ (a ++ (q3 ++ rest)) := by
      simp [ansPart, hfa, hrta, List.append_assoc]
    have hheada : (a ++ (q3 ++ rest)).head? ≠ some '\n' := by
      cases hsta : a with
      | nil => simp [q3]
      | cons c r =>
        have hh := hsa.2
        rw [hsta] at hh
        simpa using hh
    rw [hap, expectLit_append]
    dsimp only
    rw [trimLead_of_head _ hheada]
    rw [show a ++ (q3 ++ rest) = a ++ q3 ++ rest from by
      rw [List.append_assoc]]
    rw [scanML_append a hsa.1]
    dsimp only [Option.map]
    simp [toCase, hfa]
  | none =>
    have hap : ansPart f ++ rest = rest := by simp [ansPart, hfa]
    rw [hap, hra hfa]
    dsimp only
    simp [toCase, hfa]

theorem parseCasesAux_nl (k : Nat) (s : Str) :
    parseCasesAux (k+1) ('\n' :: s) = parseCasesAux (k+1) s := by
  cases s with
  | nil => rfl
  | cons c cs => simp [parseCasesAux, List.dropWhile_cons]

theorem parseCasesAux_step (k : Nat) (c : Char) (w : Str) (hc : ¬ c = '\n') :
    parseCasesAux (k+1) (c :: w) =
      (parseCaseBlock (c :: w)).bind (fun p =>
        (parseCasesAux k p.2).map (fun cs => p.1 :: cs)) := by
  simp [parseCasesAux, List.dropWhile_cons, hc]

theorem chainCore_len : ∀ (fs : List Fixture),
    fs.length ≤ (chainCore fs).length + 1 := by
  intro fs
  induction fs with
  | nil => simp [chainCore]
  | cons f rest ih =>
    cases rest with
    | nil => simp [chainCore]
    | cons g t =>
      show (f :: g :: t).length ≤
        (blockCore f ++ '\n' :: '\n' :: chainCore (g :: t)).length + 1
      simp only [List.length_cons, List.length_append] at ih ⊢
      omega

theorem parseCasesAux_chain : ∀ (fs : List Fixture) (k : Nat),
    (∀ f ∈ fs, SafeFixture f) → fs.length < k →
    parseCasesAux k (chainBlocks fs) = some (fs.map toCase) := by
  intro fs
  induction fs with
  | nil =>
    intro k _ hk
    obtain ⟨k', rfl⟩ : ∃ k', k = k'+1 := ⟨k-1, by omega⟩
    rfl
  | cons f rest ih =>
    intro k hsafe hk
    obtain ⟨k', rfl⟩ : ∃ k', k = k'+1 := ⟨k-1, by omega⟩
    have hk' : rest.length < k' := by
      simp only [List.length_cons] at hk
      omega
    have hf : SafeFixture f := hsafe f (by simp)
    have hrest : ∀ g ∈ rest, SafeFixture g := fun g hg => hsafe g (by simp [hg])
    obtain ⟨z, hz⟩ := blockCore_cons f
    cases rest with
    | nil =>
      have hcb : chainBlocks [f] = blockCore f ++ ['\n'] := rfl
      rw [hcb, hz, List.cons_append]
      rw [parseCasesAux_step k' '[' (z ++ ['\n']) (by decide)]
      rw [← List.cons_append, ← hz]
      rw [parseCaseBlock_blockCore f ['\n'] hf (fun _ => by decide)]
      dsimp only [Option.bind]
      obtain ⟨k'', rfl⟩ : ∃ k'', k' = k''+1 := ⟨k'-1, by omega⟩
      rfl
    | cons g t =>
      have hcb : chainBlocks (f :: g :: t) =
          blockCore f ++ '\n' :: '\n' :: chainBlocks (g :: t) := by
        show (blockCore f ++ '\n' :: '\n' :: chainCore (g :: t)) ++ ['\n'] = _
        simp [chainBlocks, List.append_assoc]
      rw [hcb, hz, List.cons_append]
      rw [parseCasesAux_step k' '[' _ (by decide)]
      rw [← List.cons_append, ← hz]
      have hra : f.answer = none →
          expectLit litAnswer ('\n' :: '\n' :: chainBlocks (g :: t)) = none := by
        intro _
        rw [show litAnswer = '\n' :: 'a' :: "nswer = \"\"\"".data from rfl]
        simp [expectLit]
      rw [parseCaseBlock_blockCore f _ hf hra]
      dsimp only [Option.bind]
      obtain ⟨k'', rfl⟩ : ∃ k'', k' = k''+1 := ⟨k'-1, by omega⟩
      rw [parseCasesAux_nl, parseCasesAux_nl]
      rw [ih (k''+1) hrest (by simp only [List.length_cons] at hk' ⊢; omega)]
      rfl

/-! ### Claim theorems -/

/-- C2: after any `Runner.run` call — whether the Solution terminates
normally or raises an uncaught error, and whatever the input source — the
ambient `sys.stdin` and `sys.stdout` are exactly the objects they were
before the call: the `finally` block restores both on every exit path. -/
theorem c2_streams_restored (sol : Solution) (stdin_file : Option Str)
    (s : Streams) : (Runner.run sol stdin_file s).2 = s := rfl

/-- C1 counterexample: a Solution that raises on its first case makes
`run_stdin_cases` propagate the error.  The first case is not recorded as
a Fail, the second selected case never executes, and no summary is
produced — contradicting the claim that a crashing case is Fail and the
remaining cases still run. -/
theorem c1_crash_counterexample :
    run_stdin_cases crashSol [caseA, caseB] none s0 =
      Except.error ("boom".data) := by decide

/-- C1 amended: there is no exception handler around `Runner.run` in
`run_stdin_cases`, so when the Solution raises an uncaught error on the
first selected case the whole run aborts with that error, regardless of
how many cases remain; the streams are still restored by `Runner.run`
before the error propagates. -/
theorem c1_crash_aborts_run (sol : Solution) (c : Case) (rest : List Case)
    (s : Streams) (e : Str) (h1 : sol.loads = true)
    (h2 : (sol.run (stdinStr c)).err = some e) :
    run_stdin_cases sol (c :: rest) none s = Except.error e := by
  have hr : runnerResult sol (stdinStr c) = Except.error e := by
    simp [runnerResult, h1, h2]
  show (runCasesLoop sol s (filterCases (c :: rest) none) 0 0 0).1 =
    Except.error e
  have hf : filterCases (c :: rest) none = c :: rest := rfl
  rw [hf]
  simp only [runCasesLoop, runner_run_some, hr]

/-- C1 witness: the amended statement at a concrete crashing Solution and
a two-case table. -/
theorem c1_crash_aborts_run_witness :
    crashSol.loads = true ∧
    (crashSol.run (stdinStr caseA)).err = some ("boom".data) ∧
    run_stdin_cases crashSol [caseA, caseB] none s0 =
      Except.error ("boom".data) :=
  ⟨rfl, rfl, c1_crash_aborts_run crashSol caseA [caseB] s0 _ rfl rfl⟩

/-- C3 (code bug evidence): a table with one failing case.  `cmd_test`
computes `failed == 0` as `false` and returns it, but `main` in cp.py
discards `args.func`'s value and returns normally, so the process exits 0
even though one case failed — against the documented contract that
`failed > 0` exits non-zero. -/
theorem c3_exit_zero_despite_failure :
    testExitCode (cmd_test true (TomlCases.list [caseB]) fixedSol none s0) = 0 ∧
    run_stdin_cases fixedSol [caseB] none s0 = Except.ok ⟨0, 1, 0⟩ ∧
    run_stdin_cases_ret fixedSol [caseB] none s0 = Except.ok false := by
  refine ⟨by decide, by decide, by decide⟩

/-- C5: `load_tests_toml` succeeds exactly when the source parsed as the
expected structure (a list under `cases`) and that list is non-empty; a
parse error, a missing or non-list `cases` value, or an empty list is a
load-time failure, and a successful result is never empty. -/
theorem c5_load_success_iff (t : TomlCases) (cs : List Case) :
    load_tests_toml t = Except.ok cs ↔ t = TomlCases.list cs ∧ cs ≠ [] := by
  cases t with
  | parseError => simp [load_tests_toml]
  | absent => simp [load_tests_toml]
  | notList => simp [load_tests_toml]
  | list cs' =>
    by_cases h : cs' = []
    · subst h
      simp only [load_tests_toml, if_pos rfl]
      constructor
      · intro hx; cases hx
      · rintro ⟨hx, hne⟩
        cases hx
        exact absurd rfl hne
    · simp only [load_tests_toml, if_neg h]
      constructor
      · intro hx
        cases hx
        exact ⟨rfl, h⟩
      · rintro ⟨hx, _⟩
        cases hx
        rfl

/-- C6 counterexample: with no input source, the Solution reads whatever
text the ambient stdin holds — here `"hello"` — which differs from what it
reads when an empty input source is supplied.  The claim that an absent
input source behaves like empty input is false. -/
theorem c6_ambient_counterexample :
    (Runner.run echoSol none sAmb).1 ≠ (Runner.run echoSol (some []) sAmb).1 ∧
    (Runner.run echoSol none sAmb).1 = Except.ok ("hello".data) := by
  refine ⟨by decide, by decide⟩

/-- C6 amended: when `stdin_file` is absent, `Runner.run` performs no
stdin redirection at all: the Solution runs against the ambient standard
input inherited from the harness — equivalently, as if the current
ambient stdin content had been supplied as the input source. -/
theorem c6_absent_reads_ambient (sol : Solution) (s : Streams) :
    Runner.run sol none s = Runner.run sol (some s.stdin.content) s := rfl

/-- C8 counterexample: a case that supplies no name sits at 1-based
position 10; with target index 10 the spec's selection (positional-index
default) retains it, but the code filters on `str(c.get("name", ""))`,
which never matches, so the code selects nothing. -/
theorem c8_default_name_counterexample :
    filterCases cs10 (some 10) = [] ∧ selectBySpec cs10 10 = [caseNoName] := by
  refine ⟨by decide, by decide⟩

/-- C8 amended: selection retains, in source order, exactly the cases
whose explicit name string (the empty string when the record supplies no
name) begins with the two-digit zero-padded target index; the
positional-index default plays no role in filtering, so a case without a
`name` field is never selected. -/
theorem c8_selection_by_name (cases : List Case) (tid : Nat) :
    (∀ c, c ∈ filterCases cases (some tid) ↔
      c ∈ cases ∧ (pad2 tid).isPrefixOf (nameStr c) = true) ∧
    List.Sublist (filterCases cases (some tid)) cases ∧
    (filterCases cases (some tid)).all (fun c => c.name.isSome) = true := by
  refine ⟨?_, ?_, ?_⟩
  · intro c
    simp [filterCases, List.mem_filter]
  · exact List.filter_sublist _
  · rw [List.all_eq_true]
    intro c hc
    have hc' : c ∈ cases.filter (fun c => (pad2 tid).isPrefixOf (nameStr c)) := hc
    have hm : (pad2 tid).isPrefixOf (nameStr c) = true :=
      (List.mem_filter.mp hc').2
    cases hn : c.name with
    | some nm => simp [Option.isSome, hn]
    | none =>
      exfalso
      rw [show nameStr c = [] from by simp [nameStr, hn]] at hm
      have hnil : pad2 tid = [] := by
        cases hp : pad2 tid with
        | nil => rfl
        | cons a l => rw [hp] at hm; simp [List.isPrefixOf] at hm
      exact pad2_ne_nil tid hnil

/-- C9: whenever a test run completes (returns a summary), every selected
case contributed to exactly one of the three counters:
`passed + failed + unchecked` equals the number of selected cases. -/
theorem c9_counts_partition (sol : Solution) (cases : List Case)
    (tid : Option Nat) (s : Streams) (sm : RunSummary)
    (h : run_stdin_cases sol cases tid s = Except.ok sm) :
    sm.passed + sm.failed + sm.unchecked = (filterCases cases tid).length := by
  have := runCasesLoop_sum sol (filterCases cases tid) s 0 0 0 sm h
  omega

/-- C9 witness: a three-case run (one pass, one fail, one unchecked)
partitions 3 = 1 + 1 + 1. -/
theorem c9_counts_partition_witness :
    run_stdin_cases fixedSol [caseA, caseB, caseU] none s0 =
      Except.ok ⟨1, 1, 1⟩ ∧
    1 + 1 + 1 = (filterCases [caseA, caseB, caseU] none).length :=
  ⟨by decide,
   c9_counts_partition fixedSol [caseA, caseB, caseU] none s0 ⟨1, 1, 1⟩
     (by decide)⟩

/-- C10: when the test-id filter selects no case, `run_stdin_cases`
executes nothing and reports success with all three counters zero — while
an empty case list at load time is fatal in `load_tests_toml`. -/
theorem c10_empty_selection (sol : Solution) (cases : List Case) (tid : Nat)
    (s : Streams) (h : filterCases cases (some tid) = []) :
    run_stdin_cases sol cases (some tid) s = Except.ok ⟨0, 0, 0⟩ ∧
    run_stdin_cases_ret sol cases (some tid) s = Except.ok true ∧
    load_tests_toml (TomlCases.list []) = Except.error () := by
  have h1 : run_stdin_cases sol cases (some tid) s = Except.ok ⟨0, 0, 0⟩ := by
    unfold run_stdin_cases
    rw [h]
    rfl
  refine ⟨h1, ?_, rfl⟩
  unfold run_stdin_cases_ret
  rw [h1]
  rfl

/-- C10 witness: a filter index matching no case name yields a successful
empty run. -/
theorem c10_empty_selection_witness :
    filterCases [caseA] (some 4) = [] ∧
    run_stdin_cases fixedSol [caseA] (some 4) s0 = Except.ok ⟨0, 0, 0⟩ ∧
    run_stdin_cases_ret fixedSol [caseA] (some 4) s0 = Except.ok true :=
  ⟨by decide, (c10_empty_selection fixedSol [caseA] 4 s0 (by decide)).1,
   (c10_empty_selection fixedSol [caseA] 4 s0 (by decide)).2.1⟩

/-- C4: for a case carrying an `answer` that the Solution completes
without crashing, the verdict is Pass exactly when the answer and the raw
captured output are equal after each has its trailing newlines stripped,
and Fail under any other textual difference; a case without `answer` is
always Unchecked (never Fail); and answer-less cases do not affect the
pass and fail counters of a completed run. -/
theorem c4_verdict_rules :
    (∀ (sol : Solution) (c : Case) (a : Str), c.answer = some a →
      classifyCase sol c ≠ none →
      ((classifyCase sol c = some Verdict.pass ↔
          rstripNl a = rstripNl ((sol.run (stdinStr c)).out)) ∧
       (rstripNl a ≠ rstripNl ((sol.run (stdinStr c)).out) →
          classifyCase sol c = some Verdict.fail))) ∧
    (∀ (sol : Solution) (c : Case) (v : Verdict), c.answer = none →
      classifyCase sol c = some v → v = Verdict.unchecked) ∧
    (∀ (sol : Solution) (cases : List Case) (tid : Option Nat) (s : Streams)
      (sm sm' : RunSummary),
      run_stdin_cases sol cases tid s = Except.ok sm →
      run_stdin_cases sol (cases.filter (fun c => c.answer.isSome)) tid s =
        Except.ok sm' →
      sm.passed = sm'.passed ∧ sm.failed = sm'.failed) := by
  refine ⟨?_, ?_, ?_⟩
  · intro sol c a ha hne
    have hl : sol.loads = true := by
      by_contra hl
      have hl' : sol.loads = false := by revert hl; cases sol.loads <;> simp
      have : runnerResult sol (stdinStr c) = Except.error loadFailMsg := by
        simp [runnerResult, hl']
      exact hne (classifyCase_of_runnerError this)
    cases herr : (sol.run (stdinStr c)).err with
    | some e =>
      have : runnerResult sol (stdinStr c) = Except.error e := by
        simp [runnerResult, hl, herr]
      exact absurd (classifyCase_of_runnerError this) hne
    | none =>
      have hr : runnerResult sol (stdinStr c) =
          Except.ok (rstripNl (sol.run (stdinStr c)).out) := by
        simp [runnerResult, hl, herr]
      have hcl : classifyCase sol c =
          (if compare_report (rstripNl a)
              (rstripNl (rstripNl ((sol.run (stdinStr c)).out)))
            then some Verdict.pass else some Verdict.fail) := by
        simp [classifyCase, hr, ha]
      rw [rstripNl_idem] at hcl
      constructor
      · constructor
        · intro hp
          rw [hcl] at hp
          by_cases hcmp : compare_report (rstripNl a)
              (rstripNl ((sol.run (stdinStr c)).out)) = true
          · have := hcmp
            simp [compare_report] at this
            exact this.symm
          · rw [if_neg hcmp] at hp
            simp at hp
        · intro heq
          have hcmp : compare_report (rstripNl a)
              (rstripNl ((sol.run (stdinStr c)).out)) = true := by
            simp [compare_report, heq]
          rw [hcl, if_pos hcmp]
      · intro hneq
        have hcmp : ¬ compare_report (rstripNl a)
            (rstripNl ((sol.run (stdinStr c)).out)) = true := by
          simp only [compare_report, beq_iff_eq]
          intro hx
          exact hneq hx.symm
        rw [hcl, if_neg hcmp]
  · intro sol c v ha hcl
    unfold classifyCase at hcl
    cases hr : runnerResult sol (stdinStr c) with
    | error e => rw [hr] at hcl; dsimp only at hcl; simp at hcl
    | ok actual =>
      rw [hr] at hcl
      dsimp only at hcl
      rw [ha] at hcl
      dsimp only at hcl
      exact (Option.some.inj hcl).symm
  · intro sol cases tid s sm sm' h h'
    have hcf := runCasesLoop_ok_classify sol (filterCases cases tid) s 0 0 0 sm h
    have hcf' := runCasesLoop_ok_classify sol
      (filterCases (cases.filter (fun c => c.answer.isSome)) tid) s 0 0 0 sm' h'
    have e1 := run_stdin_cases_ok sol cases tid s hcf
    have e2 := run_stdin_cases_ok sol (cases.filter (fun c => c.answer.isSome))
      tid s hcf'
    rw [e1] at h
    rw [e2] at h'
    have hsm := (Except.ok.inj h)
    have hsm' := (Except.ok.inj h')
    rw [← hsm, ← hsm']
    exact ⟨(verdictCount_filter_answered sol Verdict.pass (by simp) cases
        tid).symm,
      (verdictCount_filter_answered sol Verdict.fail (by simp) cases
        tid).symm⟩

/-- C4 witness: the rules applied to concrete cases — a passing answered
case, an unchecked case, and a three-case run whose pass and fail counts
agree with the run restricted to answered cases. -/
theorem c4_verdict_rules_witness :
    ((classifyCase fixedSol caseA = some Verdict.pass ↔
        rstripNl ("42".data) = rstripNl ((fixedSol.run (stdinStr caseA)).out)) ∧
     (rstripNl ("42".data) ≠ rstripNl ((fixedSol.run (stdinStr caseA)).out) →
        classifyCase fixedSol caseA = some Verdict.fail)) ∧
    Verdict.unchecked = Verdict.unchecked ∧
    ((⟨1, 1, 1⟩ : RunSummary).passed = (⟨1, 1, 0⟩ : RunSummary).passed ∧
     (⟨1, 1, 1⟩ : RunSummary).failed = (⟨1, 1, 0⟩ : RunSummary).failed) :=
  ⟨c4_verdict_rules.1 fixedSol caseA ("42".data) rfl (by decide),
   c4_verdict_rules.2.1 fixedSol caseU Verdict.unchecked rfl (by decide),
   c4_verdict_rules.2.2 fixedSol [caseA, caseB, caseU] none s0 ⟨1, 1, 1⟩
     ⟨1, 1, 0⟩ (by decide) (by decide)⟩

/-- C7 counterexample: a sample input text that begins with a newline does
not round-trip.  The writer emits `stdin = \"\"\"` immediately followed by
the text, and TOML trims a newline that directly follows the opening
delimiter, so reloading yields `"A\n"` where the fixture had `"\nA\n"`. -/
theorem c7_roundtrip_counterexample :
    writeLoadRoundTrip [fxLead] =
      Except.ok [⟨some ("01".data), some ("A\n".data), none⟩] ∧
    writeLoadRoundTrip [fxLead] ≠ Except.ok [toCase fxLead] := by
  refine ⟨by decide, by decide⟩

/-- C7 amended: for a non-empty fixture list whose names are plain
basic-string characters and whose input/answer texts contain no backslash
or double quote, only printable characters, tabs and newlines, and do not
begin with a newline, writing the table and reloading it yields exactly
the same case set — the same names in the same order, the same stdin
texts, and the same answers (or answer absence). -/
theorem c7_roundtrip_safe (fs : List Fixture) (hne : fs ≠ [])
    (hsafe : ∀ f ∈ fs, SafeFixture f) :
    writeLoadRoundTrip fs = Except.ok (fs.map toCase) := by
  unfold writeLoadRoundTrip tomlCasesOfSource tomlParseCases
  rw [write_eq_chain]
  have hlen : fs.length < (chainBlocks fs).length + 1 := by
    have := chainCore_len fs
    simp only [chainBlocks, List.length_append, List.length_cons,
      List.length_nil]
    omega
  rw [parseCasesAux_chain fs _ hsafe hlen]
  cases hmm : fs.map toCase with
  | nil =>
    exfalso
    cases fs with
    | nil => exact hne rfl
    | cons a b => cases hmm
  | cons c cs =>
    simp [load_tests_toml]

/-- C7 witness: two safe fixtures (one with an expected answer, one
without) round-trip to exactly their case records. -/
theorem c7_roundtrip_safe_witness :
    ([fxSafe1, fxSafe2] ≠ ([] : List Fixture)) ∧
    (∀ f ∈ [fxSafe1, fxSafe2], SafeFixture f) ∧
    writeLoadRoundTrip [fxSafe1, fxSafe2] =
      Except.ok [toCase fxSafe1, toCase fxSafe2] :=
  ⟨by decide, by decide,
   c7_roundtrip_safe [fxSafe1, fxSafe2] (by decide) (by decide)⟩

end Solver
